import Mathlib

/-!
Verification of the trainHOG training pipeline against its code.

The development shallowly embeds the pieces of the repository that the
properties below talk about:

* the SVMlight wrapper's detector-vector synthesis
  (`SVMlight::getSingleDetectingVector`, svmlight.h) and its threshold
  accessor (`SVMlight::getThreshold`),
* the libSVM wrapper's detector-vector synthesis and threshold accessor
  (`libSVM::getSingleDetectingVector`, `libSVM::getThreshold`, libsvm.h)
  and its dataset reader (`libSVM::read_problem`),
* the dataset writing loop, the directory catalog (`getFilesInDirectory`),
  the descriptor-vector save routine (`saveDescriptorVectorToFile`),
  the training-set evaluator (`detectTrainingSetTest`) and the `main`
  orchestration skeleton (main.cpp).

Floating-point values are modelled as rationals (ℚ); machine integers as
`Int`/`Nat`.  C++ `std::vector<T>` becomes `List T`; the bounds-checked
`std::vector::at` access, which throws `std::out_of_range`, becomes an
`Except` computation.
-/

namespace TrainHOG

/-- Raised when `std::vector::at` is called with an index outside the
vector: the C++ call throws `std::out_of_range` and the program aborts. -/
inductive AtError where
  | outOfRange
deriving DecidableEq

/-- One entry of an SVMlight `SVECTOR`'s `words` array: a 1-based sparse
feature number `wnum` (C type `FNUM`, an integer; the array is terminated
by an entry with `wnum = 0`) and the feature value `weight`. -/
structure Word where
  wnum : Int
  weight : Rat
deriving DecidableEq

instance : Inhabited Word := ⟨⟨0, 0⟩⟩

/-- The part of SVMlight's `MODEL` that `getSingleDetectingVector` and
`getThreshold` read: `totwords` (feature dimensionality), the `supvec`
array of support vectors (slot 0 is unused, as in SVMlight, where the
arrays are 1-indexed and sized `sv_num`), the `alpha` array of signed
weights (`alpha[i]` already encodes `alpha * label_sign`; slot 0 likewise
unused), and the bias `b`.  `supvec` and `alpha` both have `sv_num`
entries in the C struct, so here they are lists of equal length. -/
structure SVMlightModel where
  totwords : Nat
  supvec : List (List Word)
  alpha : List Rat
  b : Rat
deriving DecidableEq

/-- `singleDetectorVector.at(i) += x` — `std::vector::at` is
bounds-checked: an index outside `[0, v.length)` throws
`std::out_of_range` (the index expression is a C integer, so a value of
`-1` converts to a huge `size_t` and is likewise out of range). -/
def atAdd (v : List Rat) (i : Int) (x : Rat) : Except AtError (List Rat) :=
  if h : 0 ≤ i ∧ i.toNat < v.length then
    .ok (v.set i.toNat (v.get ⟨i.toNat, h.2⟩ + x))
  else
    .error .outOfRange

/-- The sequence of `words` entries the inner loop of
`SVMlight::getSingleDetectingVector` reads: it walks
`singleSupportVectorValues->words[singleFeature]` for
`singleFeature = 0 .. totwords-1` regardless of the actual sparse length.
SVMlight allocates `words` with a terminating entry `{wnum = 0}`, so a
read at the sparse end yields that zero terminator (reads strictly past
it are undefined in C and are modelled the same way). -/
def svWords (totwords : Nat) (ws : List Word) : List Word :=
  ws.take totwords ++ List.replicate (totwords - ws.length) default

/-- Inner loop of `SVMlight::getSingleDetectingVector`: for each read
word, `singleDetectorVector.at(wnum - 1) += weight * alpha[ssv]`. -/
def svAccum (a : Rat) : List Word → List Rat → Except AtError (List Rat)
  | [], v => .ok v
  | w :: ws, v =>
    match atAdd v (w.wnum - 1) (w.weight * a) with
    | .ok v' => svAccum a ws v'
    | .error e => .error e

/-- Outer loop of `SVMlight::getSingleDetectingVector`: walks the support
vectors `ssv = 1 .. sv_num-1` (slot 0 is skipped by the C loop) together
with their `alpha[ssv]` weights. -/
def svlLoop (totwords : Nat) : List (List Word × Rat) → List Rat → Except AtError (List Rat)
  | [], v => .ok v
  | (ws, a) :: rest, v =>
    match svAccum a (svWords totwords ws) v with
    | .ok v' => svlLoop totwords rest v'
    | .error e => .error e

/-- `SVMlight::getSingleDetectingVector` (svmlight.h): clears the
caller's vector (`buf` is discarded), resizes it to `totwords` zeros, and
folds every support vector's contribution into it.  `supvec` and `alpha`
are walked in parallel from index 1 (`for (long ssv = 1; ssv <
model->sv_num; ++ssv)`). -/
def svlSynth (m : SVMlightModel) (buf : List Rat) : Except AtError (List Rat) :=
  svlLoop m.totwords ((m.supvec.zip m.alpha).drop 1) (List.replicate m.totwords 0)

/-- `SVMlight::getThreshold`: returns `model->b`. -/
def SVMlightModel.getThreshold (m : SVMlightModel) : Rat := m.b

/-- Contribution of one support vector (words `ws`, signed weight `a`) to
dense accumulator position `p`: the sum of `weight * a` over the word
entries whose 1-based sparse index `wnum` equals `p + 1`. -/
def wContrib (a : Rat) (ws : List Word) (p : Nat) : Rat :=
  (ws.map fun w => if w.wnum = (p : Int) + 1 then w.weight * a else 0).sum

/-- Total contribution of a list of (support vector, signed weight)
pairs to dense accumulator position `p`. -/
def svlTotal (svs : List (List Word × Rat)) (p : Nat) : Rat :=
  (svs.map fun wa => wContrib wa.2 wa.1 p).sum

/-- Well-formedness of a fitted SVMlight model, as guaranteed by
SVMlight itself for dense training data of dimensionality `totwords`:
`supvec` and `alpha` have the same number of entries (`sv_num`), and
every actual support vector (slots 1 and upward) records exactly
`totwords` word entries whose 1-based sparse indices lie in
`[1, totwords]`. -/
def SVMlightModel.WF (m : SVMlightModel) : Prop :=
  m.supvec.length = m.alpha.length ∧
  ∀ wa ∈ (m.supvec.zip m.alpha).drop 1,
    wa.1.length = m.totwords ∧ ∀ w ∈ wa.1, 1 ≤ w.wnum ∧ w.wnum ≤ (m.totwords : Int)

instance (m : SVMlightModel) : Decidable m.WF := by
  unfold SVMlightModel.WF
  infer_instance

/-- One `svm_node` of libSVM: a sparse feature `index` (C `int`; the
node array of a support vector is terminated by an entry with
`index = -1`) and the feature `value`. -/
structure SvmNode where
  index : Int
  value : Rat
deriving DecidableEq

/-- The part of libSVM's `svm_model` that `getSingleDetectingVector` and
`getThreshold` read: the `SV` array of support vectors (each given as the
list of its nodes before the `-1` terminator; `model->l` is the common
length of `SV` and `sv_coef[0]`), the signed coefficients
`sv_coef[0][i] = alpha[i] * y[i]`, and `rho[0]`. -/
structure LibsvmModel where
  SV : List (List SvmNode)
  sv_coef : List Rat
  rho0 : Rat
deriving DecidableEq

/-- `libSVM::getThreshold`: returns `model->rho[0]`. -/
def LibsvmModel.getThreshold (m : LibsvmModel) : Rat := m.rho0

/-- Inner loop of `libSVM::getSingleDetectingVector` for a support
vector beyond the first (`ssv > 0`), walking the nodes with their
component position `c` (`singleVectorComponent`): a component with
`c > singleDetectorVector.size()` only prints a warning and is skipped
("Catch oversized vectors"); otherwise `singleDetectorVector.at(c) +=
value * alpha`, where `at` throws `std::out_of_range` when
`c = singleDetectorVector.size()`. -/
def libAccum (a : Rat) : Nat → List SvmNode → List Rat → Except AtError (List Rat)
  | _, [], v => .ok v
  | c, n :: ns, v =>
    if c > v.length then
      libAccum a (c + 1) ns v
    else if h : c < v.length then
      libAccum a (c + 1) ns (v.set c (v.get ⟨c, h⟩ + n.value * a))
    else
      .error .outOfRange

/-- Outer loop of `libSVM::getSingleDetectingVector` over the support
vectors with `ssv ≥ 1`, each paired with its coefficient
`model->sv_coef[0][ssv]`. -/
def libLoop : List (List SvmNode × Rat) → List Rat → Except AtError (List Rat)
  | [], v => .ok v
  | (ns, a) :: rest, v =>
    match libAccum a 0 ns v with
    | .ok v' => libLoop rest v'
    | .error e => .error e

/-- `libSVM::getSingleDetectingVector` (libsvm.h): clears both caller
vectors (`bufV`, `bufI` are discarded), then walks
`ssv = 0 .. model->l - 1`.  The first support vector (`ssv == 0`)
determines the vector length: each component's `value * alpha` and
`index` are pushed back; every later support vector is folded in through
`libAccum`.  The commented-out `push_back(b)` at the end is not executed,
so no bias element is appended. -/
def libSynth (m : LibsvmModel) (bufV : List Rat) (bufI : List Int) :
    Except AtError (List Rat × List Int) :=
  match m.SV.zip m.sv_coef with
  | [] => .ok ([], [])
  | (sv0, a0) :: rest =>
    match libLoop rest (sv0.map fun n => n.value * a0) with
    | .ok v => .ok (v, sv0.map fun n => n.index)
    | .error e => .error e

/-- Contribution of one libSVM support vector (nodes `ns`, coefficient
`a`) to dense position `p`: its `p`-th component's `value * a` when the
vector reaches position `p`, and zero when its sparse span is shorter. -/
def nodeContrib (a : Rat) (ns : List SvmNode) (p : Nat) : Rat :=
  if h : p < ns.length then (ns.get ⟨p, h⟩).value * a else 0

/-- `saveDescriptorVectorToFile` (main.cpp): writes
`descriptorVector.at(feature)` followed by the separator for
`feature = 0 .. size-1`, then a newline — modelled as the list of
numeric values written to the file.  Nothing but the vector's components
is emitted (in particular no bias element). -/
def savedValues (v : List Rat) : List Rat :=
  (List.range v.length).map fun i => v.getD i 0

/-- One line of the features file at token level.  `label` is the result
of applying `strtod` to the line's first token (`none` when the token is
not a number — e.g. the `#` of the provenance comment line written by
`main`); `pairs` are the `index:value` token pairs, each side again as
parsed by `strtol`/`strtod` (`none` for a malformed token).  The writer
never emits empty lines, so every modelled line has a first token. -/
structure RawLine where
  label : Option Rat
  pairs : List (Option Int × Option Rat)
deriving DecidableEq

/-- The provenance comment line `# Use this file to train, ...` written
by `main`: its first token `#` does not parse as a number. -/
def commentLine : RawLine := ⟨none, []⟩

/-- One iteration of the feature-writing loop in `main` (main.cpp):
a sample whose feature vector is empty produces no line; otherwise one
line with label token `+1` (positive) or `-1` (negative) and one
`(feature+1):value` pair per component (1-based indices). -/
def writeSample (s : Bool × List Rat) : Option RawLine :=
  if s.2.isEmpty then none
  else some ⟨some (if s.1 then 1 else -1),
             (List.enumFrom 1 s.2).map fun iv => (some (iv.1 : Int), some iv.2)⟩

/-- The dataset lines produced by `main`'s feature-writing loop:
optionally the leading comment line (emitted when the SVMlight backend
is selected, `TRAINHOG_USEDSVM == SVMLIGHT`), then one line per sample
with a non-empty feature vector, in sample order. -/
def writeDataset (withComment : Bool) (samples : List (Bool × List Rat)) : List RawLine :=
  (if withComment then [commentLine] else []) ++ samples.filterMap writeSample

/-- The feature-pair loop of `libSVM::read_problem` for one line,
carrying `inst_max_index` (initially `-1`): a pair whose index token
fails `strtol`, whose index is not strictly greater than the previous
one (`x_space[j].index <= inst_max_index`), or whose value token fails
`strtod`, aborts the parse (`exit_input_error`). -/
def parsePairs (instMax : Int) : List (Option Int × Option Rat) → Option (List (Int × Rat))
  | [] => some []
  | (oi, ov) :: rest =>
    match oi with
    | none => none
    | some i =>
      if i ≤ instMax then none
      else
        match ov with
        | none => none
        | some v =>
          match parsePairs i rest with
          | none => none
          | some tail => some ((i, v) :: tail)

/-- Parsing of one line by `libSVM::read_problem`: the first token must
parse as a number via `strtod` (`endptr == label || *endptr != '\0'`
aborts — this is what rejects a `#` comment line), then the pairs are
parsed with strictly increasing indices. -/
def parseLine (ln : RawLine) : Option (Rat × List (Int × Rat)) :=
  match ln.label with
  | none => none
  | some y =>
    match parsePairs (-1) ln.pairs with
    | none => none
    | some ps => some (y, ps)

/-- The per-line loop of `libSVM::read_problem`; a parse failure on the
line with 0-based position `i` calls `exit_input_error(i + 1)`, modelled
as `Except.error (i + 1)`. -/
def readLines : Nat → List RawLine → Except Nat (List (Rat × List (Int × Rat)))
  | _, [] => .ok []
  | i, ln :: rest =>
    match parseLine ln with
    | none => .error (i + 1)
    | some ex =>
      match readLines (i + 1) rest with
      | .ok tail => .ok (ex :: tail)
      | .error e => .error e

/-- `libSVM::read_problem` (libsvm.h): parses every line of the features
file into `(prob.y[i], prob.x[i])`, failing fast with a line-numbered
input error on the first malformed line. -/
def read_problem (lines : List RawLine) : Except Nat (List (Rat × List (Int × Rat))) :=
  readLines 0 lines

/-- One directory entry as returned by `readdir`: the entry name and
whether `ep->d_type & DT_DIR` is set. -/
structure DirEnt where
  name : String
  isDir : Bool
deriving DecidableEq

/-- `toLowerCase` (main.cpp): applies `tolower` to every character. -/
def toLowerCase (s : String) : String :=
  ⟨s.data.map Char.toLower⟩

/-- The extension text `getFilesInDirectory` extracts:
`string(ep->d_name).substr(string(ep->d_name).find_last_of(".") + 1)`.
With a dot present this is the text after the last dot; without one,
`find_last_of` returns `npos` and `npos + 1` wraps to `0`, so the whole
name is taken. -/
def extractExt (name : String) : String :=
  ⟨(name.data.reverse.takeWhile (· != '.')).reverse⟩

/-- `getFilesInDirectory` (main.cpp): walks the directory entries in
order, skips entries whose `d_type` has the directory bit, keeps an
entry when the lower-cased extension text is in `validExtensions`, and
appends `dirName + ep->d_name` to the result. -/
def getFilesInDirectory (dirName : String) (entries : List DirEnt)
    (validExtensions : List String) : List String :=
  entries.filterMap fun ep =>
    if ep.isDir then none
    else if toLowerCase (extractExt ep.name) ∈ validExtensions then
      some (dirName ++ ep.name)
    else none

/-- The four counters of `detectTrainingSetTest`. -/
structure Tally where
  truePositives : Nat
  trueNegatives : Nat
  falsePositives : Nat
  falseNegatives : Nat
deriving DecidableEq

/-- Positive-sample loop body of `detectTrainingSetTest`: on a positive
image with `hits = foundDetection.size()` detections, one true positive
and `hits - 1` extra false negatives when `hits > 0`, else one false
negative. -/
def tallyPos (t : Tally) (hits : Nat) : Tally :=
  if hits > 0 then
    { t with truePositives := t.truePositives + 1,
             falseNegatives := t.falseNegatives + (hits - 1) }
  else
    { t with falseNegatives := t.falseNegatives + 1 }

/-- Negative-sample loop body of `detectTrainingSetTest`: `hits` false
positives when `hits > 0`, else one true negative. -/
def tallyNeg (t : Tally) (hits : Nat) : Tally :=
  if hits > 0 then
    { t with falsePositives := t.falsePositives + hits }
  else
    { t with trueNegatives := t.trueNegatives + 1 }

/-- `detectTrainingSetTest` (main.cpp): starts all four counters at
zero, walks the positive training images and then the negative ones,
given the per-image hit counts reported by the external detector
(`hog.detect`). -/
def detectTrainingSetTest (posHits negHits : List Nat) : Tally :=
  negHits.foldl tallyNeg (posHits.foldl tallyPos ⟨0, 0, 0, 0⟩)

/-- `posSamplesDir` (main.cpp). -/
def posSamplesDir : String := "pos/"

/-- `negSamplesDir` (main.cpp). -/
def negSamplesDir : String := "neg/"

/-- The extension allow-list `main` builds: jpg, png, ppm. -/
def mainValidExtensions : List String := ["jpg", "png", "ppm"]

/-- Observable outcome of the modelled prefix of `main` (through the
feature-writing stage and the decision to invoke the trainer).
`exitCode = some c` means `main` returns `c` within this prefix;
`none` means the run continues into the training/evaluation suffix. -/
structure RunState where
  exitCode : Option Nat
  reportedNothingToDo : Bool
  openedDatasetFile : Bool
  datasetLines : List RawLine
  trainerInvoked : Bool
deriving DecidableEq

/-- Orchestration skeleton of `main` (svmlight-backend variant):
catalogs both sample directories; with zero overall samples prints
"No training sample files found, nothing to do!" and returns
`EXIT_SUCCESS` without touching the features file or the trainer;
otherwise opens the features file (failure returns `EXIT_FAILURE`),
writes the comment line and the per-sample feature lines
(`hogFeatures` is the external HOG boundary: the feature vector of an
image file, empty on decode failure or size mismatch), and proceeds to
invoke the trainer. -/
def mainRun (posEntries negEntries : List DirEnt) (hogFeatures : String → List Rat)
    (featuresFileOpenOk : Bool) : RunState :=
  let positiveTrainingImages := getFilesInDirectory posSamplesDir posEntries mainValidExtensions
  let negativeTrainingImages := getFilesInDirectory negSamplesDir negEntries mainValidExtensions
  let overallSamples := positiveTrainingImages.length + negativeTrainingImages.length
  if overallSamples = 0 then
    { exitCode := some 0, reportedNothingToDo := true, openedDatasetFile := false,
      datasetLines := [], trainerInvoked := false }
  else if featuresFileOpenOk then
    let samples := positiveTrainingImages.map (fun f => (true, hogFeatures f)) ++
                   negativeTrainingImages.map (fun f => (false, hogFeatures f))
    { exitCode := none, reportedNothingToDo := false, openedDatasetFile := true,
      datasetLines := writeDataset true samples, trainerInvoked := true }
  else
    { exitCode := some 1, reportedNothingToDo := false, openedDatasetFile := true,
      datasetLines := [], trainerInvoked := false }

instance : Inhabited SvmNode := ⟨⟨0, 0⟩⟩

/-! ## Helper lemmas -/

theorem getD_set_of_lt (v : List Rat) (q p : Nat) (y : Rat) (hq : q < v.length) :
    (v.set q y).getD p 0 = if q = p then y else v.getD p 0 := by
  simp only [List.getD_eq_getElem?_getD, List.getElem?_set]
  by_cases h : q = p
  · simp [h, h ▸ hq]
  · simp [h]

theorem getD_replicate_zero (n p : Nat) : (List.replicate n (0 : Rat)).getD p 0 = 0 := by
  simp only [List.getD_eq_getElem?_getD, List.getElem?_replicate]
  by_cases h : p < n <;> simp [h]

theorem getD_eq_get (v : List Rat) (q : Nat) (hq : q < v.length) :
    v.getD q 0 = v.get ⟨q, hq⟩ := by
  simp [List.getD_eq_getElem?_getD, List.getElem?_eq_getElem hq]

theorem wContrib_cons (a : Rat) (w : Word) (ws : List Word) (p : Nat) :
    wContrib a (w :: ws) p
      = (if w.wnum = (p : Int) + 1 then w.weight * a else 0) + wContrib a ws p := by
  simp [wContrib]

theorem svAccum_ok (a : Rat) (ws : List Word) :
    ∀ v : List Rat, (∀ w ∈ ws, 1 ≤ w.wnum ∧ w.wnum ≤ (v.length : Int)) →
    ∃ v', svAccum a ws v = .ok v' ∧ v'.length = v.length ∧
      ∀ p, v'.getD p 0 = v.getD p 0 + wContrib a ws p := by
  induction ws with
  | nil =>
    intro v _
    exact ⟨v, rfl, rfl, fun p => by simp [wContrib]⟩
  | cons w ws ih =>
    intro v hw
    obtain ⟨h1, h2⟩ := hw w (by simp)
    have hq : 0 ≤ w.wnum - 1 ∧ (w.wnum - 1).toNat < v.length := by omega
    have hstep : svAccum a (w :: ws) v
        = svAccum a ws (v.set (w.wnum - 1).toNat
            (v.get ⟨(w.wnum - 1).toNat, hq.2⟩ + w.weight * a)) := by
      simp only [svAccum, atAdd, dif_pos hq]
    set v1 := v.set (w.wnum - 1).toNat
        (v.get ⟨(w.wnum - 1).toNat, hq.2⟩ + w.weight * a) with hv1
    have hlen1 : v1.length = v.length := List.length_set ..
    obtain ⟨v', hok, hlen, hval⟩ := ih v1 (by
      intro x hx
      have := hw x (by simp [hx])
      omega)
    refine ⟨v', by rw [hstep]; exact hok, by rw [hlen, hlen1], fun p => ?_⟩
    rw [hval p, hv1, getD_set_of_lt v _ p _ hq.2, wContrib_cons]
    by_cases hc : w.wnum = (p : Int) + 1
    · have hqp : (w.wnum - 1).toNat = p := by omega
      rw [if_pos hqp, if_pos hc, ← getD_eq_get v _ hq.2, hqp]
      ring
    · have hqp : (w.wnum - 1).toNat ≠ p := by omega
      rw [if_neg hqp, if_neg hc]
      ring

theorem svlTotal_cons (wa : List Word × Rat) (rest : List (List Word × Rat)) (p : Nat) :
    svlTotal (wa :: rest) p = wContrib wa.2 wa.1 p + svlTotal rest p := by
  simp [svlTotal]

theorem svlLoop_ok (D : Nat) (svs : List (List Word × Rat)) :
    ∀ v : List Rat, v.length = D →
    (∀ wa ∈ svs, wa.1.length = D ∧ ∀ w ∈ wa.1, 1 ≤ w.wnum ∧ w.wnum ≤ (D : Int)) →
    ∃ v', svlLoop D svs v = .ok v' ∧ v'.length = D ∧
      ∀ p, v'.getD p 0 = v.getD p 0 + svlTotal svs p := by
  induction svs with
  | nil =>
    intro v hv _
    exact ⟨v, rfl, hv, fun p => by simp [svlTotal]⟩
  | cons wa rest ih =>
    intro v hv hall
    obtain ⟨hlen, hbound⟩ := hall wa (by simp)
    have hwords : svWords D wa.1 = wa.1 := by
      simp [svWords, ← hlen, List.take_length]
    obtain ⟨v1, hok1, hlen1, hval1⟩ := svAccum_ok wa.2 wa.1 v (by
      intro w hwmem
      have := hbound w hwmem
      omega)
    have hstep : svlLoop D (wa :: rest) v = svlLoop D rest v1 := by
      obtain ⟨ws, a⟩ := wa
      simp only [svlLoop, hwords]
      rw [hok1]
    obtain ⟨v', hok, hlen', hval⟩ := ih v1 (hlen1.trans hv) (fun x hx => hall x (by simp [hx]))
    refine ⟨v', by rw [hstep]; exact hok, hlen', fun p => ?_⟩
    rw [hval p, hval1 p, svlTotal_cons]
    ring

theorem svlSynth_spec (m : SVMlightModel) (buf : List Rat) (h : m.WF) :
    ∃ v, svlSynth m buf = .ok v ∧ v.length = m.totwords ∧
      ∀ p, v.getD p 0 = svlTotal ((m.supvec.zip m.alpha).drop 1) p := by
  obtain ⟨v', hok, hlen, hval⟩ :=
    svlLoop_ok m.totwords ((m.supvec.zip m.alpha).drop 1)
      (List.replicate m.totwords 0) (List.length_replicate ..) h.2
  exact ⟨v', hok, hlen, fun p => by
    rw [hval p, getD_replicate_zero, zero_add]⟩

/-! ## Claim theorems -/

/-- Claim C1 — Synthesis correctness: for a well-formed fitted SVMlight
model (linear kernel, support vectors as sequences of 1-based sparse
(index, value) pairs, each with signed weight `alpha[ssv]`),
`SVMlight::getSingleDetectingVector` returns the dense vector in which
position `k - 1` holds the sum over all support vectors of
`alpha[ssv] * x_k`; in particular for sv1 = {(1,2.0),(2,0.0)} with weight
0.5 and sv2 = {(1,1.0),(2,3.0)} with weight -1.0 over D = 2 the result
is [0.0, -3.0]. -/
theorem c1_synthesis_correct (m : SVMlightModel) (buf : List Rat) (h : m.WF) :
    (∃ v, svlSynth m buf = .ok v ∧ v.length = m.totwords ∧
       ∀ p, v.getD p 0 = svlTotal ((m.supvec.zip m.alpha).drop 1) p) ∧
    svlSynth ⟨2, [[], [⟨1, 2⟩, ⟨2, 0⟩], [⟨1, 1⟩, ⟨2, 3⟩]], [0, 1/2, -1], 0⟩ []
      = .ok [0, -3] := by
  constructor
  · exact svlSynth_spec m buf h
  · norm_num [svlSynth, svlLoop, svAccum, svWords, atAdd, List.replicate, List.set]

/-- Witness for C1: the two-support-vector model from the claim is
well-formed, and the theorem applies to it. -/
theorem c1_synthesis_correct_witness :
    (⟨2, [[], [⟨1, 2⟩, ⟨2, 0⟩], [⟨1, 1⟩, ⟨2, 3⟩]], [0, 1/2, -1], 0⟩ : SVMlightModel).WF ∧
    (∃ v, svlSynth ⟨2, [[], [⟨1, 2⟩, ⟨2, 0⟩], [⟨1, 1⟩, ⟨2, 3⟩]], [0, 1/2, -1], 0⟩ []
        = .ok v ∧ v.length = 2 ∧
      ∀ p, v.getD p 0
        = svlTotal ([[], [⟨1, 2⟩, ⟨2, 0⟩], [⟨1, 1⟩, ⟨2, 3⟩]].zip [0, 1/2, -1]).tail p) := by
  have hw : (⟨2, [[], [⟨1, 2⟩, ⟨2, 0⟩], [⟨1, 1⟩, ⟨2, 3⟩]], [0, 1/2, -1], 0⟩ : SVMlightModel).WF := by
    decide
  exact ⟨hw, (c1_synthesis_correct _ [] hw).1⟩

theorem nodeContrib_eq_getD (a : Rat) (ns : List SvmNode) (p : Nat) :
    nodeContrib a ns p
      = if p < ns.length then (ns.getD p default).value * a else 0 := by
  unfold nodeContrib
  by_cases h : p < ns.length
  · rw [dif_pos h, if_pos h]
    congr 1
    simp [List.getD_eq_getElem?_getD, List.getElem?_eq_getElem h]
  · rw [dif_neg h, if_neg h]

theorem libAccum_ok (a : Rat) (ns : List SvmNode) :
    ∀ (c : Nat) (v : List Rat), c + ns.length ≤ v.length →
    ∃ v', libAccum a c ns v = .ok v' ∧ v'.length = v.length ∧
      ∀ p, v'.getD p 0 = v.getD p 0 +
        (if c ≤ p ∧ p < c + ns.length then (ns.getD (p - c) default).value * a else 0) := by
  induction ns with
  | nil =>
    intro c v _
    refine ⟨v, rfl, rfl, fun p => ?_⟩
    simp only [List.length_nil]
    have : ¬(c ≤ p ∧ p < c + 0) := by omega
    rw [if_neg this, add_zero]
  | cons n ns ih =>
    intro c v hlen
    have hc : c < v.length := by simp at hlen; omega
    have hnotgt : ¬(c > v.length) := by omega
    have hstep : libAccum a c (n :: ns) v
        = libAccum a (c + 1) ns (v.set c (v.get ⟨c, hc⟩ + n.value * a)) := by
      simp only [libAccum, if_neg hnotgt, dif_pos hc]
    set v1 := v.set c (v.get ⟨c, hc⟩ + n.value * a) with hv1
    have hlen1 : v1.length = v.length := List.length_set ..
    obtain ⟨v', hok, hlen', hval⟩ := ih (c + 1) v1 (by simp at hlen ⊢; omega)
    refine ⟨v', by rw [hstep]; exact hok, hlen'.trans hlen1, fun p => ?_⟩
    rw [hval p, hv1, getD_set_of_lt v _ p _ hc]
    by_cases hp : c = p
    · subst hp
      have h2 : ¬(c + 1 ≤ c ∧ c < c + 1 + ns.length) := by omega
      have h3 : c ≤ c ∧ c < c + (ns.length + 1) := by omega
      rw [if_pos rfl, if_neg h2, if_pos (by simpa using h3)]
      rw [Nat.sub_self, List.getD_cons_zero, getD_eq_get v c hc]
      ring
    · rw [if_neg hp]
      by_cases h2 : c + 1 ≤ p ∧ p < c + 1 + ns.length
      · have h3 : c ≤ p ∧ p < c + (n :: ns).length := by simp; omega
        rw [if_pos h2, if_pos h3]
        have hsub : p - c = (p - (c + 1)) + 1 := by omega
        rw [hsub, List.getD_cons_succ]
      · have h3 : ¬(c ≤ p ∧ p < c + (n :: ns).length) := by simp; omega
        rw [if_neg h2, if_neg h3]

theorem libLoop_ok (rest : List (List SvmNode × Rat)) :
    ∀ v : List Rat, (∀ sa ∈ rest, sa.1.length ≤ v.length) →
    ∃ v', libLoop rest v = .ok v' ∧ v'.length = v.length ∧
      ∀ p, v'.getD p 0 = v.getD p 0 + ((rest.map fun sa => nodeContrib sa.2 sa.1 p)).sum := by
  induction rest with
  | nil =>
    intro v _
    exact ⟨v, rfl, rfl, fun p => by simp⟩
  | cons sa rest ih =>
    intro v hall
    have hsa : sa.1.length ≤ v.length := hall sa (by simp)
    obtain ⟨v1, hok1, hlen1, hval1⟩ := libAccum_ok sa.2 sa.1 0 v (by omega)
    have hstep : libLoop (sa :: rest) v = libLoop rest v1 := by
      obtain ⟨ns, a⟩ := sa
      simp only [libLoop]
      rw [hok1]
    obtain ⟨v', hok, hlen', hval⟩ := ih v1 (fun x hx => hlen1 ▸ hall x (by simp [hx]))
    refine ⟨v', by rw [hstep]; exact hok, hlen'.trans hlen1, fun p => ?_⟩
    rw [hval p, hval1 p, List.map_cons, List.sum_cons, nodeContrib_eq_getD]
    have : (if 0 ≤ p ∧ p < 0 + sa.1.length then (sa.1.getD (p - 0) default).value * sa.2 else 0)
        = if p < sa.1.length then (sa.1.getD p default).value * sa.2 else 0 := by
      by_cases h : p < sa.1.length
      · rw [if_pos (by omega), if_pos h]
        simp
      · rw [if_neg (by omega), if_neg h]
    rw [this]
    ring

theorem map_value_getD (a : Rat) (ns : List SvmNode) (p : Nat) :
    (ns.map fun n => n.value * a).getD p 0 = nodeContrib a ns p := by
  rw [nodeContrib_eq_getD]
  by_cases h : p < ns.length
  · rw [if_pos h]
    simp [List.getD_eq_getElem?_getD, List.getElem?_map, List.getElem?_eq_getElem h]
  · rw [if_neg h]
    have : ns.length ≤ p := by omega
    simp [List.getD_eq_getElem?_getD, List.getElem?_eq_none (by simpa using this)]

theorem libSynth_ok (m : LibsvmModel) (bufV : List Rat) (bufI : List Int)
    (sv0 : List SvmNode) (a0 : Rat) (rest : List (List SvmNode × Rat))
    (hSV : m.SV.zip m.sv_coef = (sv0, a0) :: rest)
    (hrest : ∀ sa ∈ rest, sa.1.length ≤ sv0.length) :
    ∃ v, libSynth m bufV bufI = .ok (v, sv0.map fun n => n.index) ∧
      v.length = sv0.length ∧
      ∀ p, v.getD p 0
        = nodeContrib a0 sv0 p + ((rest.map fun sa => nodeContrib sa.2 sa.1 p)).sum := by
  obtain ⟨v', hok, hlen, hval⟩ :=
    libLoop_ok rest (sv0.map fun n => n.value * a0)
      (fun sa hsa => by simpa using hrest sa hsa)
  refine ⟨v', ?_, by simpa using hlen, fun p => ?_⟩
  · unfold libSynth
    rw [hSV]
    simp only [hok]
  · rw [hval p, map_value_getD]

/-- Claim C3 — the claim is right and the code is wrong: the guard in
`libSVM::getSingleDetectingVector` is `singleVectorComponent >
singleDetectorVector.size()`, so the first oversized component (which,
with the component counter increasing by one from zero, always has
`singleVectorComponent == size()`) escapes the "Catch oversized vectors"
warning branch and `vector::at` throws `std::out_of_range` instead of
reporting and skipping: with a first support vector of two components
and a second one of three, synthesis aborts. -/
theorem c3_oversized_component_throws :
    libSynth ⟨[[⟨1, 1⟩, ⟨2, 1⟩], [⟨1, 1⟩, ⟨2, 1⟩, ⟨3, 1⟩]], [1, 1], 0⟩ [] []
      = .error .outOfRange := by
  norm_num [libSynth, libLoop, libAccum, List.set]

/-- Claim C4 — Synthesized length: `SVMlight::getSingleDetectingVector`
resizes the output to `totwords` zeros and in-range accumulation keeps
that length, so the result has length exactly `D = totwords`; in
`libSVM::getSingleDetectingVector` the first support vector fixes the
dense length and every later support vector with a shorter sparse span
contributes its components only to the positions it mentions and zero
(`nodeContrib`'s else-branch) to the rest. -/
theorem c4_synthesized_length (m : SVMlightModel) (buf : List Rat) (h : m.WF)
    (m2 : LibsvmModel) (bufV : List Rat) (bufI : List Int)
    (sv0 : List SvmNode) (a0 : Rat) (rest : List (List SvmNode × Rat))
    (hSV : m2.SV.zip m2.sv_coef = (sv0, a0) :: rest)
    (hrest : ∀ sa ∈ rest, sa.1.length ≤ sv0.length) :
    (∃ v, svlSynth m buf = .ok v ∧ v.length = m.totwords) ∧
    (∃ v, libSynth m2 bufV bufI = .ok (v, sv0.map fun n => n.index) ∧
       v.length = sv0.length ∧
       ∀ p, v.getD p 0
         = nodeContrib a0 sv0 p + ((rest.map fun sa => nodeContrib sa.2 sa.1 p)).sum) := by
  constructor
  · obtain ⟨v, hok, hlen, _⟩ := svlSynth_spec m buf h
    exact ⟨v, hok, hlen⟩
  · exact libSynth_ok m2 bufV bufI sv0 a0 rest hSV hrest

/-- Witness for C4: a two-support-vector SVMlight model and a libSVM
model whose second support vector has a shorter sparse span than the
first. -/
theorem c4_synthesized_length_witness :
    ((⟨3, [[], [⟨1, 2⟩, ⟨2, 0⟩, ⟨3, 5⟩]], [0, 1], 0⟩ : SVMlightModel).WF ∧
     (⟨[[⟨1, 1⟩, ⟨2, 4⟩], [⟨1, 2⟩]], [1, 1], 0⟩ : LibsvmModel).SV.zip
        (⟨[[⟨1, 1⟩, ⟨2, 4⟩], [⟨1, 2⟩]], [1, 1], 0⟩ : LibsvmModel).sv_coef
       = (([⟨1, 1⟩, ⟨2, 4⟩] : List SvmNode), (1 : Rat))
           :: [(([⟨1, 2⟩] : List SvmNode), (1 : Rat))] ∧
     ∀ sa ∈ [(([⟨1, 2⟩] : List SvmNode), (1 : Rat))], sa.1.length ≤ 2) ∧
    ((∃ v, svlSynth ⟨3, [[], [⟨1, 2⟩, ⟨2, 0⟩, ⟨3, 5⟩]], [0, 1], 0⟩ [] = .ok v ∧ v.length = 3) ∧
     (∃ v, libSynth ⟨[[⟨1, 1⟩, ⟨2, 4⟩], [⟨1, 2⟩]], [1, 1], 0⟩ [] []
          = .ok (v, ([⟨1, 1⟩, ⟨2, 4⟩] : List SvmNode).map fun n => n.index) ∧
        v.length = ([⟨1, 1⟩, ⟨2, 4⟩] : List SvmNode).length ∧
        ∀ p, v.getD p 0
          = nodeContrib 1 ([⟨1, 1⟩, ⟨2, 4⟩] : List SvmNode) p
            + (([(([⟨1, 2⟩] : List SvmNode), (1 : Rat))].map
                  fun sa => nodeContrib sa.2 sa.1 p)).sum)) := by
  have hw : (⟨3, [[], [⟨1, 2⟩, ⟨2, 0⟩, ⟨3, 5⟩]], [0, 1], 0⟩ : SVMlightModel).WF := by decide
  have hz : (⟨[[⟨1, 1⟩, ⟨2, 4⟩], [⟨1, 2⟩]], [1, 1], 0⟩ : LibsvmModel).SV.zip
      (⟨[[⟨1, 1⟩, ⟨2, 4⟩], [⟨1, 2⟩]], [1, 1], 0⟩ : LibsvmModel).sv_coef
      = (([⟨1, 1⟩, ⟨2, 4⟩] : List SvmNode), (1 : Rat))
          :: [(([⟨1, 2⟩] : List SvmNode), (1 : Rat))] := rfl
  have hr : ∀ sa ∈ [(([⟨1, 2⟩] : List SvmNode), (1 : Rat))], sa.1.length ≤ 2 := by decide
  exact ⟨⟨hw, hz, hr⟩,
    c4_synthesized_length _ [] hw _ [] [] _ _ _ hz (by simpa using hr)⟩

theorem atAdd_length (v : List Rat) (i : Int) (x : Rat) (v' : List Rat)
    (h : atAdd v i x = .ok v') : v'.length = v.length := by
  unfold atAdd at h
  split at h
  · cases h
    simp
  · cases h

theorem svAccum_length (a : Rat) (ws : List Word) :
    ∀ v v' : List Rat, svAccum a ws v = .ok v' → v'.length = v.length := by
  induction ws with
  | nil =>
    intro v v' h
    cases h
    rfl
  | cons w ws ih =>
    intro v v' h
    simp only [svAccum] at h
    cases hA : atAdd v (w.wnum - 1) (w.weight * a) with
    | ok v1 =>
      rw [hA] at h
      exact (ih v1 v' h).trans (atAdd_length v _ _ v1 hA)
    | error e =>
      rw [hA] at h
      cases h

theorem svlLoop_length (D : Nat) (svs : List (List Word × Rat)) :
    ∀ v v' : List Rat, svlLoop D svs v = .ok v' → v'.length = v.length := by
  induction svs with
  | nil =>
    intro v v' h
    cases h
    rfl
  | cons wa rest ih =>
    intro v v' h
    obtain ⟨ws, a⟩ := wa
    simp only [svlLoop] at h
    cases hA : svAccum a (svWords D ws) v with
    | ok v1 =>
      rw [hA] at h
      exact (ih v1 v' h).trans (svAccum_length a _ v v1 hA)
    | error e =>
      rw [hA] at h
      cases h

theorem savedValues_id (v : List Rat) : savedValues v = v := by
  refine List.ext_get (by simp [savedValues]) fun n h1 h2 => ?_
  have hn : v.getD n 0 = v[n] := by
    simp [List.getD_eq_getElem?_getD, List.getElem?_eq_getElem h2]
  simpa [savedValues] using hn

/-- Claim C9 — bias kept separate: whenever the SVMlight synthesizer
succeeds, the descriptor vector has exactly `totwords` components, and
`saveDescriptorVectorToFile` writes exactly those components to the file
— no bias element is appended anywhere; the bias is exposed only through
`getThreshold`, which returns `model->b` for the SVMlight backend and
`model->rho[0]` for the libSVM backend. -/
theorem c9_bias_kept_separate (m : SVMlightModel) (m2 : LibsvmModel) (buf v : List Rat)
    (h : svlSynth m buf = .ok v) :
    savedValues v = v ∧ v.length = m.totwords ∧
    m.getThreshold = m.b ∧ m2.getThreshold = m2.rho0 := by
  refine ⟨savedValues_id v, ?_, rfl, rfl⟩
  have := svlLoop_length m.totwords ((m.supvec.zip m.alpha).drop 1)
    (List.replicate m.totwords 0) v h
  simpa using this

/-- Witness for C9: the synthesizer succeeds on the two-support-vector
model and the saved file holds exactly the two weight components. -/
theorem c9_bias_kept_separate_witness :
    (svlSynth ⟨2, [[], [⟨1, 2⟩, ⟨2, 0⟩], [⟨1, 1⟩, ⟨2, 3⟩]], [0, 1/2, -1], 7⟩ []
       = .ok [0, -3]) ∧
    (savedValues [0, -3] = [0, -3] ∧ ([0, -3] : List Rat).length = 2 ∧
     (⟨2, [[], [⟨1, 2⟩, ⟨2, 0⟩], [⟨1, 1⟩, ⟨2, 3⟩]], [0, 1/2, -1], 7⟩ : SVMlightModel).getThreshold = 7 ∧
     (⟨[], [], 5⟩ : LibsvmModel).getThreshold = 5) := by
  have hok : svlSynth ⟨2, [[], [⟨1, 2⟩, ⟨2, 0⟩], [⟨1, 1⟩, ⟨2, 3⟩]], [0, 1/2, -1], 7⟩ []
      = .ok [0, -3] := by
    norm_num [svlSynth, svlLoop, svAccum, svWords, atAdd, List.replicate, List.set]
  exact ⟨hok, c9_bias_kept_separate _ ⟨[], [], 5⟩ [] [0, -3] hok⟩

/-- Claim C10 — synthesis output is independent of the caller-supplied
buffers: both `getSingleDetectingVector` implementations clear the
output vectors before accumulating, so any two prior buffer contents
give identical results, and two runs on the same model agree. -/
theorem c10_buffer_independent (m : SVMlightModel) (b1 b2 : List Rat)
    (m2 : LibsvmModel) (v1 v2 : List Rat) (i1 i2 : List Int) :
    svlSynth m b1 = svlSynth m b2 ∧ libSynth m2 v1 i1 = libSynth m2 v2 i2 :=
  ⟨rfl, rfl⟩

theorem parsePairs_written (fv : List Rat) :
    ∀ (k : Nat) (instMax : Int), instMax < (k : Int) →
    parsePairs instMax ((List.enumFrom k fv).map fun iv => (some (iv.1 : Int), some iv.2))
      = some ((List.enumFrom k fv).map fun iv => ((iv.1 : Int), iv.2)) := by
  induction fv with
  | nil =>
    intro k instMax _
    rfl
  | cons x fv ih =>
    intro k instMax hm
    simp only [List.enumFrom_cons, List.map_cons, parsePairs]
    rw [if_neg (by omega), ih (k + 1) k (by omega)]

theorem readLines_written (samples : List (Bool × List Rat)) :
    ∀ i : Nat, readLines i (samples.filterMap writeSample)
      = .ok ((samples.filter fun s => !s.2.isEmpty).map fun s =>
          ((if s.1 then (1 : Rat) else -1),
           (List.enumFrom 1 s.2).map fun iv => ((iv.1 : Int), iv.2))) := by
  induction samples with
  | nil =>
    intro i
    rfl
  | cons s samples ih =>
    intro i
    by_cases he : s.2.isEmpty
    · simp only [List.filterMap_cons, writeSample, if_pos he, List.filter_cons, he,
        Bool.not_true, Bool.false_eq_true, if_false]
      exact ih i
    · simp only [List.filterMap_cons, writeSample, if_neg he, List.filter_cons,
        eq_self_iff_true]
      have he' : (!s.2.isEmpty) = true := by simp [he]
      rw [he']
      simp only [readLines, parseLine, List.map_cons, if_true]
      rw [parsePairs_written s.2 1 (-1) (by omega), ih (i + 1)]

/-- Claim C2 — counterexample to the claim as stated: when the leading
`#` provenance comment line is written (as `main` does for the SVMlight
backend), `libSVM::read_problem` does not ignore it: `strtod` fails on
the `#` token and the reader exits with an input error at line 1, so the
round trip does not reproduce the dataset. -/
theorem c2_comment_rejected :
    read_problem (writeDataset true [(true, [3])]) = .error 1 ∧
    read_problem (writeDataset true [(true, [3])]) ≠ .ok [(1, [(1, 3)])] := by
  have h1 : read_problem (writeDataset true [(true, [3])]) = .error 1 := rfl
  exact ⟨h1, by rw [h1]; exact fun h => Except.noConfusion h⟩

/-- Claim C2 (amended) — Round-trip without the comment line: for every
dataset of labeled examples, writing it with the feature-writing loop
(no comment line) and parsing the result with `libSVM::read_problem`
reproduces, for every retained (non-empty) example, the signed label
(+1 or -1) and the 1-based (index, value) pairs exactly. -/
theorem c2_roundtrip (samples : List (Bool × List Rat)) :
    read_problem (writeDataset false samples)
      = .ok ((samples.filter fun s => !s.2.isEmpty).map fun s =>
          ((if s.1 then (1 : Rat) else -1),
           (List.enumFrom 1 s.2).map fun iv => ((iv.1 : Int), iv.2))) := by
  unfold read_problem writeDataset
  exact readLines_written samples 0

theorem filterMap_fst_written (l : List (Nat × Rat)) :
    List.filterMap Prod.fst (l.map fun iv => (some (iv.1 : Int), some iv.2))
      = l.map fun iv => (iv.1 : Int) := by
  induction l with
  | nil => rfl
  | cons iv ivs ih => simp [ih]

theorem enumFrom_fst_cast (fv : List Rat) :
    ∀ k : Nat, (List.enumFrom k fv).map (fun iv => (iv.1 : Int))
      = (List.range fv.length).map fun i : Nat => (i : Int) + k := by
  induction fv with
  | nil =>
    intro k
    rfl
  | cons x fv ih =>
    intro k
    simp only [List.enumFrom_cons, List.map_cons, List.length_cons,
      List.range_succ_eq_map, List.map_map]
    rw [ih (k + 1)]
    congr 1
    · omega
    · refine List.map_congr_left fun i _ => ?_
      simp only [Function.comp_apply]
      push_cast
      ring

/-- Claim C5 — Dataset write contract: the writer emits (after the
optional comment line) exactly one line per sample with a non-empty
feature vector, in order, labelled `+1` for positive and `-1` for
negative samples; the written index tokens are the consecutive 1-based
integers `1 .. D`, which are strictly increasing and therefore
duplicate-free; empty-feature samples produce no line at all. -/
theorem c5_write_contract (withComment : Bool) (samples : List (Bool × List Rat)) :
    writeDataset withComment samples
      = (if withComment then [commentLine] else [])
        ++ (samples.filter fun s => !s.2.isEmpty).map (fun s =>
             ⟨some (if s.1 then 1 else -1),
              (List.enumFrom 1 s.2).map fun iv => (some (iv.1 : Int), some iv.2)⟩)
    ∧ (∀ (s1 : Bool) (fv : List Rat),
        (writeSample (s1, fv)).map (fun ln => ln.pairs.filterMap Prod.fst)
          = if fv.isEmpty then none
            else some ((List.range fv.length).map fun i : Nat => (i : Int) + 1))
    ∧ (∀ fv : List Rat,
        List.Pairwise (· < ·) ((List.range fv.length).map fun i : Nat => (i : Int) + 1)) := by
  refine ⟨?_, ?_, ?_⟩
  · unfold writeDataset
    congr 1
    induction samples with
    | nil => rfl
    | cons s samples ih =>
      by_cases he : s.2.isEmpty
      · simp only [List.filterMap_cons, writeSample, if_pos he, List.filter_cons, he,
          Bool.not_true, Bool.false_eq_true, if_false]
        exact ih
      · have he' : (!s.2.isEmpty) = true := by simp [he]
        simp only [List.filterMap_cons, writeSample, if_neg he, List.filter_cons, he',
          if_true, List.map_cons]
        rw [ih]
  · intro s1 fv
    unfold writeSample
    by_cases he : fv.isEmpty
    · simp [he]
    · have he' : (fv.isEmpty) = false := by simpa using he
      have hcast := enumFrom_fst_cast fv 1
      push_cast at hcast
      simp only [he', if_false, Bool.false_eq_true, Option.map_some']
      rw [filterMap_fst_written, hcast]
  · intro fv
    refine List.Pairwise.map _ (fun a b h => ?_) (List.pairwise_lt_range fv.length)
    omega

/-- Claim C6 — counterexample to the claim as stated: dot-files are not
skipped by `getFilesInDirectory`.  A regular file named `.jpg` passes the
directory-bit check, its text after the last dot is `jpg`, so it is
returned — the claim says dot-files are skipped, i.e. the result should
have been empty. -/
theorem c6_counterexample :
    getFilesInDirectory "pos/" [⟨".jpg", false⟩] ["jpg"] = ["pos/.jpg"] ∧
    getFilesInDirectory "pos/" [⟨".jpg", false⟩] ["jpg"] ≠ ([] : List String) := by
  have h1 : getFilesInDirectory "pos/" [⟨".jpg", false⟩] ["jpg"] = ["pos/.jpg"] := by
    decide
  exact ⟨h1, by rw [h1]; exact fun h => List.noConfusion h⟩

/-- Claim C6 (amended) — Extension filter: the catalog returns exactly
the non-directory entries whose lower-cased extension text — the text
after the last `.`, or the whole filename when it has no dot (since
`find_last_of` returns `npos` and `npos + 1` wraps to 0) — is in the
allow-list, prefixed with the directory name; directory entries are
skipped but dot-files are not (`.jpg` matches allow-list `{jpg}`).  For
`{a.JPG, b.png, c.txt, d}` with `{jpg, png}` the result is exactly
`{a.JPG, b.png}`. -/
theorem c6_extension_filter (dirName : String) (entries : List DirEnt)
    (exts : List String) :
    (∀ f : String, f ∈ getFilesInDirectory dirName entries exts
       ↔ ∃ e ∈ entries, e.isDir = false ∧ toLowerCase (extractExt e.name) ∈ exts
           ∧ f = dirName ++ e.name)
    ∧ getFilesInDirectory "dir/"
        [⟨"a.JPG", false⟩, ⟨"b.png", false⟩, ⟨"c.txt", false⟩, ⟨"d", false⟩]
        ["jpg", "png"]
      = ["dir/a.JPG", "dir/b.png"]
    ∧ getFilesInDirectory "dir/" [⟨".jpg", false⟩] ["jpg"] = ["dir/.jpg"] := by
  refine ⟨fun f => ?_, by decide, by decide⟩
  rw [getFilesInDirectory, List.mem_filterMap]
  constructor
  · rintro ⟨e, he, hfe⟩
    by_cases hd : e.isDir
    · simp [hd] at hfe
    · by_cases hm : toLowerCase (extractExt e.name) ∈ exts
      · rw [if_neg (by simp [hd]), if_pos hm] at hfe
        exact ⟨e, he, by simp [hd], hm, (Option.some.inj hfe).symm⟩
      · rw [if_neg (by simp [hd]), if_neg hm] at hfe
        cases hfe
  · rintro ⟨e, he, hd, hm, rfl⟩
    exact ⟨e, he, by rw [if_neg (by simp [hd]), if_pos hm]⟩

theorem foldl_tallyPos (l : List Nat) :
    ∀ t : Tally, l.foldl tallyPos t
      = ⟨t.truePositives + l.countP (fun h => decide (0 < h)),
         t.trueNegatives,
         t.falsePositives,
         t.falseNegatives + (l.map fun h => if 0 < h then h - 1 else 1).sum⟩ := by
  induction l with
  | nil =>
    intro t
    obtain ⟨a, b, c, d⟩ := t
    simp
  | cons h l ih =>
    intro t
    rw [List.foldl_cons, ih]
    obtain ⟨a, b, c, d⟩ := t
    by_cases hh : 0 < h
    · simp [tallyPos, hh, List.countP_cons, Tally.mk.injEq]
      omega
    · simp [tallyPos, hh, List.countP_cons, Tally.mk.injEq]
      omega

theorem foldl_tallyNeg (l : List Nat) :
    ∀ t : Tally, l.foldl tallyNeg t
      = ⟨t.truePositives,
         t.trueNegatives + l.countP (fun h => decide (h = 0)),
         t.falsePositives + l.sum,
         t.falseNegatives⟩ := by
  induction l with
  | nil =>
    intro t
    obtain ⟨a, b, c, d⟩ := t
    simp
  | cons h l ih =>
    intro t
    rw [List.foldl_cons, ih]
    obtain ⟨a, b, c, d⟩ := t
    by_cases hh : 0 < h
    · have hz : ¬(h = 0) := by omega
      simp [tallyNeg, hh, hz, List.countP_cons, Tally.mk.injEq]
      omega
    · have hz : h = 0 := by omega
      simp [tallyNeg, hh, hz, List.countP_cons, Tally.mk.injEq]
      omega

/-- Claim C7 — Evaluator tallies: `detectTrainingSetTest` counts one
true positive per positive image with at least one hit and adds each hit
beyond the first to the false negatives, one false negative per positive
image with zero hits, one true negative per hit-free negative image, and
one false positive per hit on a negative image; in particular 2 positive
images with 1 hit each and 2 negative images with 0 hits give
truePositives = 2, trueNegatives = 2, falsePositives = 0,
falseNegatives = 0. -/
theorem c7_evaluator_tallies (posHits negHits : List Nat) :
    detectTrainingSetTest posHits negHits
      = ⟨posHits.countP (fun h => decide (0 < h)),
         negHits.countP (fun h => decide (h = 0)),
         negHits.sum,
         (posHits.map fun h => if 0 < h then h - 1 else 1).sum⟩
    ∧ detectTrainingSetTest [1, 1] [0, 0] = ⟨2, 2, 0, 0⟩ := by
  refine ⟨?_, by decide⟩
  unfold detectTrainingSetTest
  rw [foldl_tallyPos, foldl_tallyNeg]
  simp

/-- Claim C8 — Zero-sample run: when the two sample directories together
yield no catalogued files, `main` reports "No training sample files
found, nothing to do!" and returns `EXIT_SUCCESS` (0) without opening or
writing the features file and without invoking the trainer. -/
theorem c8_zero_sample_run (posEntries negEntries : List DirEnt)
    (hogFeatures : String → List Rat) (featuresFileOpenOk : Bool)
    (hp : getFilesInDirectory posSamplesDir posEntries mainValidExtensions = [])
    (hn : getFilesInDirectory negSamplesDir negEntries mainValidExtensions = []) :
    mainRun posEntries negEntries hogFeatures featuresFileOpenOk
      = ⟨some 0, true, false, [], false⟩ := by
  simp [mainRun, hp, hn]

/-- Witness for C8: two empty directories. -/
theorem c8_zero_sample_run_witness :
    getFilesInDirectory posSamplesDir [] mainValidExtensions = [] ∧
    getFilesInDirectory negSamplesDir [] mainValidExtensions = [] ∧
    mainRun [] [] (fun _ => []) true = ⟨some 0, true, false, [], false⟩ := by
  have hp : getFilesInDirectory posSamplesDir [] mainValidExtensions = [] := rfl
  have hn : getFilesInDirectory negSamplesDir [] mainValidExtensions = [] := rfl
  exact ⟨hp, hn, c8_zero_sample_run [] [] (fun _ => []) true hp hn⟩

end TrainHOG
